import Mathlib

/-
Verification of the assembly-preprocessing pipeline
(`assembly_preprocessing.py`): tokenization of assembly functions,
glossary-based category assignment, and percentage aggregation into a
feature table.  Python strings are Lean `String`s, Python lists are Lean
`List`s, the `defaultdict(str)` keyed by `(category, index)` is an
insertion-ordered association list, Python floats are exact rationals, and
code that can raise (`IndexError`, `ZeroDivisionError`) lives in `Except`.
-/

deriving instance DecidableEq for Except

namespace AsmPre

/-- Python exceptions that the embedded code can raise. -/
inductive PyErr where
  | indexError
  | zeroDivisionError
deriving DecidableEq

/-- Python list indexing `l[i]` for a nonnegative `i`: raises `IndexError`
when out of range. -/
def pyIdx {α : Type} (l : List α) (i : Nat) : Except PyErr α :=
  match l.get? i with
  | some x => Except.ok x
  | none => Except.error PyErr.indexError

/-- Fold over a list in the `Except` monad (a Python for-loop whose body may
raise). -/
def exceptFold {σ α : Type} (f : σ → α → Except PyErr σ) : σ → List α → Except PyErr σ
  | s, [] => Except.ok s
  | s, a :: as =>
    match f s a with
    | Except.ok s' => exceptFold f s' as
    | Except.error e => Except.error e

/-- Map over a list in the `Except` monad (building a list in a Python loop
whose body may raise). -/
def exceptMap {α β : Type} (f : α → Except PyErr β) : List α → Except PyErr (List β)
  | [] => Except.ok []
  | a :: as =>
    match f a with
    | Except.error e => Except.error e
    | Except.ok b =>
      match exceptMap f as with
      | Except.error e => Except.error e
      | Except.ok bs => Except.ok (b :: bs)

/-- Python `str.split(sep)` for a one-character separator, on the character
list: consecutive separators produce empty fragments and the result is never
empty. -/
def splitOnChar (c : Char) : List Char → List (List Char)
  | [] => [[]]
  | a :: as =>
    let r := splitOnChar c as
    if a = c then [] :: r
    else
      match r with
      | [] => [[a]]
      | h :: t => (a :: h) :: t

/-- Python `s.split(sep)` for a one-character separator `sep`. -/
def pySplit (s : String) (c : Char) : List String :=
  (splitOnChar c s.data).map String.mk

/-- `(instruction.split(" "))[0]`: the first space-delimited word.  Python
`split` with an explicit separator never returns an empty list, so index 0
always exists; `headD` is exact. -/
def firstWord (s : String) : String := (pySplit s ' ').headD ""

/-- The structural-noise fragments dropped by the tokenizer:
`["[", "]", ","]`. -/
def noiseTokens : List String := ["[", "]", ","]

/-- `if command not in token_list: token_list.append(command)`. -/
def insertNew {α : Type} [DecidableEq α] (acc : List α) (c : α) : List α :=
  if c ∈ acc then acc else acc ++ [c]

/-- Inner loop of `tokenize_instructions` over the fragments of one function
string: accumulate the vocabulary and the function's token sequence. -/
def tokenizeStep (acc : List String × List String) (instruction : String) :
    List String × List String :=
  let command := firstWord instruction
  if command ∈ noiseTokens then acc
  else (insertNew acc.1 command, acc.2 ++ [command])

/-- Outer loop of `tokenize_instructions`, one function string: run the
inner fold over the quote-separated fragments (the quote is the character
with code 39), thread the vocabulary and append the function's token
sequence. -/
def tokenizeOuter (acc : List String × List (List String)) (function : String) :
    List String × List (List String) :=
  let r := (pySplit function (Char.ofNat 39)).foldl tokenizeStep (acc.1, [])
  (r.1, acc.2 ++ [r.2])

/-- `Assembly_Preprocessor.tokenize_instructions`: split every function on
`'`, take each fragment's first word, drop the structural-noise fragments,
collect the per-function token sequences and the first-seen vocabulary. -/
def tokenize_instructions (assembly_functions : List String) :
    List String × List (List String) :=
  assembly_functions.foldl tokenizeOuter ([], [])

/-- The token sequence of a single function string (the tokenizer's inner
loop, without the vocabulary accumulator). -/
def tokenizeFun (s : String) : List String :=
  ((pySplit s (Char.ofNat 39)).map firstWord).filter (fun c => decide (c ∉ noiseTokens))

/-- All tokens of all functions, in processing order. -/
def tokenStream (fns : List String) : List String := (fns.map tokenizeFun).flatten

/-- Keep the first occurrence of every element, in order (the reference
description of the vocabulary's order). -/
def dedupFirst : List String → List String
  | [] => []
  | x :: xs => x :: dedupFirst (xs.filter (fun y => decide (y ≠ x)))
termination_by l => l.length
decreasing_by
  exact Nat.lt_succ_of_le (List.length_filter_le _ _)

/-- The token dictionary: `defaultdict(str)` keyed by `(category, index)`,
kept in insertion order. -/
abbrev TokenDict := List ((String × Nat) × String)

/-- `token_dict[k] += v` for a `defaultdict(str)`: concatenate onto the
existing value, or insert `k ↦ v` at the end (default value `""`). -/
def addStr : TokenDict → (String × Nat) → String → TokenDict
  | [], k, v => [(k, v)]
  | (k', v') :: rest, k, v =>
    if k' = k then (k', v' ++ v) :: rest else (k', v') :: addStr rest k v

/-- Python `c in line` for a single-character needle: membership of the
character among the line's characters. -/
def lineContains (s : String) (c : Char) : Bool := s.data.contains c

/-- State of the file-mode glossary scan: the category names seen so far
(`features`, with `f_i = features.length`), the position counter `e_i`, and
the assignment built so far. -/
structure FileSt where
  features : List String
  e : Nat
  dict : TokenDict
deriving DecidableEq

/-- A category name line, stripped of the marker character and newlines
(`element.replace(special_char, "").replace("\n", "")`). -/
def fileCatName (special : Char) (line : String) : String :=
  (line.replace (String.singleton special) "").replace "\n" ""

/-- A mnemonic candidate line, stripped of spaces and newlines
(`element.replace(" ", "").replace("\n", "")`). -/
def fileMnemonic (line : String) : String :=
  (line.replace " " "").replace "\n" ""

/-- One line of the file-mode scan.  A line containing the marker opens a new
category (key `(name, 0)` gets `+= ''`); any other line is a candidate
mnemonic (if it is in the vocabulary, append it under the most recently
opened category).  `features[f_i-1]` is the last element of `features`; the
first scanned line always contains the marker, so `features` is nonempty
whenever this is reached. -/
def fileStep (token_list : List String) (special : Char) (st : FileSt) (line : String) :
    FileSt :=
  if lineContains line special then
    { features := st.features ++ [fileCatName special line], e := 0,
      dict := addStr st.dict (fileCatName special line, 0) "" }
  else
    if fileMnemonic line ∈ token_list then
      { st with
        dict := addStr st.dict (st.features.getLastD "", st.e) (fileMnemonic line)
        e := st.e + 1 }
    else st

/-- `token_categorizer`, file mode.  `lines[0][0]` raises `IndexError` on an
empty file (`readlines` lines are never empty strings, so the empty-first-line
case is also modelled as that access failing).  Returns the assignment and
whether the insufficient-glossary warning was printed
(`len(token_list) > len(lines) - len(features)`). -/
def token_categorizer_file (token_list : List String) (lines : List String) :
    Except PyErr (TokenDict × Bool) :=
  match lines with
  | [] => Except.error PyErr.indexError
  | l0 :: _ =>
    match l0.data with
    | [] => Except.error PyErr.indexError
    | special :: _ =>
      let st := lines.foldl (fileStep token_list special) ⟨[], 0, []⟩
      Except.ok (st.dict, decide (token_list.length > lines.length - st.features.length))

/-- The external glossary provider interface: an ordered list of category
names and an ordered list of `(category, position) ↦ mnemonic` pairs. -/
structure Glossary where
  categories : List String
  dictionary : List ((String × Nat) × String)

/-- Modelled from the spec: the code imports `Assembly_Glossary` from
`assembly_glossary`, which is not among the sources; the spec (§1, §6)
treats it as an external provider of `getCategories()` and
`getDictionary()`.  Following the spec's §4.2 and §8 example scenario, the
modelled default glossary places `mov`, `movsd`, `movsx` under
"Data transfer", `add` under "Arithmetic", and `jmp` under "Control flow"
(distinct categories). -/
def defaultGlossary : Glossary :=
  { categories := ["Data transfer", "Arithmetic", "Control flow"]
    dictionary :=
      [ (("Data transfer", 0), "mov")
      , (("Data transfer", 1), "movsd")
      , (("Data transfer", 2), "movsx")
      , (("Arithmetic", 0), "add")
      , (("Control flow", 0), "jmp") ] }

/-- State of the default-mode walk: current category index `f_i`, position
counter `e_i`, and the assignment built so far. -/
structure DefSt where
  f : Nat
  e : Nat
  dict : TokenDict
deriving DecidableEq

/-- One provider pair of the default-mode walk: when the pair's category
differs from `features[f_i]`, open `features[f_i+1]` (key gets `+= ''`) and
reset the position counter; then, if the pair's mnemonic is in the
vocabulary, append it under `(features[f_i], e_i)`. -/
def defaultStep (token_list : List String) (features : List String) (st : DefSt)
    (item : (String × Nat) × String) : Except PyErr DefSt :=
  match pyIdx features st.f with
  | Except.error er => Except.error er
  | Except.ok cur =>
    let adv : Except PyErr DefSt :=
      if item.1.1 ≠ cur then
        match pyIdx features (st.f + 1) with
        | Except.error er => Except.error er
        | Except.ok nxt => Except.ok ⟨st.f + 1, 0, addStr st.dict (nxt, 0) ""⟩
      else Except.ok st
    match adv with
    | Except.error er => Except.error er
    | Except.ok st' =>
      if item.2 ∈ token_list then
        match pyIdx features st'.f with
        | Except.error er => Except.error er
        | Except.ok cur2 => Except.ok ⟨st'.f, st'.e + 1, addStr st'.dict (cur2, st'.e) item.2⟩
      else Except.ok st'

/-- `token_categorizer`, default mode: initialize `(features[0], 0)` with
`''` and walk the provider's pairs. -/
def token_categorizer_default (token_list : List String) (g : Glossary) :
    Except PyErr TokenDict :=
  match pyIdx g.categories 0 with
  | Except.error er => Except.error er
  | Except.ok c0 =>
    match exceptFold (defaultStep token_list g.categories) ⟨0, 0, addStr [] (c0, 0) ""⟩
        g.dictionary with
    | Except.error er => Except.error er
    | Except.ok st => Except.ok st.dict

/-- The dynamic type of the Python `instruction_glossary` argument. -/
inductive GlossaryArg where
  | none
  | str (path : String)
  | path (p : String)
  | list (l : List String)
deriving DecidableEq

/-- `Assembly_Preprocessor.token_categorizer`: file mode exactly when the
argument `is not None and isinstance(_, str)`; every other argument falls
through to default mode.  `fs` models the file system (path ↦ `readlines`
content); default mode never consults it and never warns. -/
def token_categorizer (token_list : List String) (instruction_glossary : GlossaryArg)
    (fs : String → List String) (g : Glossary) : Except PyErr (TokenDict × Bool) :=
  match instruction_glossary with
  | GlossaryArg.str path => token_categorizer_file token_list (fs path)
  | _ =>
    match token_categorizer_default token_list g with
    | Except.error er => Except.error er
    | Except.ok d => Except.ok (d, false)

/-- Round-half-to-even to an integer (Python `round` on an exact value). -/
def rhe (q : ℚ) : ℤ :=
  let f := ⌊q⌋
  let r := q - (f : ℚ)
  if r < 1/2 then f
  else if 1/2 < r then f + 1
  else if f % 2 = 0 then f else f + 1

/-- Python `round(x, 2)`, modelled on exact rationals. -/
def round2 (q : ℚ) : ℚ := ((rhe (100 * q) : ℤ) : ℚ) / 100

/-- The `categories` loop of `assembly_dataframer`: distinct category names
among the assignment's keys, in first-seen order. -/
def distinctCats (d : TokenDict) : List String :=
  d.foldl (fun acc item => insertNew acc item.1.1) []

/-- State of the per-function counting loop: the category pointer `i`, the
`duplicate_control` list, and the per-category occurrence counts. -/
structure CountSt where
  i : Nat
  dup : List String
  occ : List Nat
deriving DecidableEq

/-- One assignment item of the counting loop: read `categories[i]` (may
raise), advance `i` when it differs from the item's category, and if the
item's mnemonic occurs in the function and was not already scored, record it
in `duplicate_control` and add all its instances to `token_occ[i]` (an
out-of-range write raises). -/
def countStep (categories : List String) (function : List String) (st : CountSt)
    (item : (String × Nat) × String) : Except PyErr CountSt :=
  match pyIdx categories st.i with
  | Except.error er => Except.error er
  | Except.ok catAtI =>
    let i' := if catAtI ≠ item.1.1 then st.i + 1 else st.i
    if item.2 ∈ function then
      if item.2 ∈ st.dup then Except.ok ⟨i', st.dup, st.occ⟩
      else
        if h : i' < st.occ.length then
          Except.ok ⟨i', st.dup ++ [item.2],
            st.occ.set i' (st.occ.get ⟨i', h⟩ + function.count item.2)⟩
        else Except.error PyErr.indexError
    else Except.ok ⟨i', st.dup, st.occ⟩

/-- The normalization loop `round(token_occ[i]/sum(token_occ), 2)` over
`i in range(len(categories))`: with at least one category and a zero total it
raises `ZeroDivisionError` at `i = 0`; with no categories the loop body never
runs. -/
def percList (k : Nat) (occ : List Nat) : Except PyErr (List ℚ) :=
  if k = 0 then Except.ok []
  else if occ.sum = 0 then Except.error PyErr.zeroDivisionError
  else Except.ok ((List.range k).map (fun i => round2 ((occ.getD i 0 : ℚ) / (occ.sum : ℚ))))

/-- The resulting `pd.DataFrame`: named columns and one row of rationals per
function. -/
structure Frame where
  cols : List String
  rows : List (List ℚ)
deriving DecidableEq

/-- `Assembly_Preprocessor.assembly_dataframer`: derive the column names,
run the counting loop and the normalization for every function, and assemble
the table. -/
def assembly_dataframer (tokenized_functions : List (List String))
    (token_dictionary : TokenDict) : Except PyErr Frame :=
  let categories := distinctCats token_dictionary
  match exceptMap (fun function =>
      match exceptFold (countStep categories function)
          ⟨0, [], List.replicate categories.length 0⟩ token_dictionary with
      | Except.error er => Except.error er
      | Except.ok st => percList categories.length st.occ) tokenized_functions with
  | Except.error er => Except.error er
  | Except.ok rows => Except.ok ⟨categories, rows⟩

/-- `Assembly_Preprocessor.complete_preprocessing`: tokenizer → categorizer
→ dataframer, no additional logic. -/
def complete_preprocessing (assembly_functions : List String)
    (instruction_glossary : GlossaryArg) (fs : String → List String) :
    Except PyErr Frame :=
  let r := tokenize_instructions assembly_functions
  match token_categorizer r.1 instruction_glossary fs defaultGlossary with
  | Except.error er => Except.error er
  | Except.ok (d, _) => assembly_dataframer r.2 d

/-- Membership after one conditional append. -/
theorem mem_insertNew {α : Type} [DecidableEq α] {acc : List α} {c x : α} :
    x ∈ insertNew acc c ↔ x ∈ acc ∨ x = c := by
  unfold insertNew
  split
  · constructor
    · exact Or.inl
    · rintro (hx | rfl)
      · exact hx
      · assumption
  · simp [List.mem_append]

/-- One conditional append preserves `Nodup`. -/
theorem nodup_insertNew {α : Type} [DecidableEq α] {acc : List α} {c : α} (h : acc.Nodup) :
    (insertNew acc c).Nodup := by
  unfold insertNew
  split
  · exact h
  · next hc =>
    rw [List.nodup_append]
    refine ⟨h, List.nodup_singleton c, ?_⟩
    intro x hx hxc
    simp only [List.mem_singleton] at hxc
    subst hxc
    exact hc hx

/-- Membership in a fold of conditional appends. -/
theorem mem_foldl_insertNew {α : Type} [DecidableEq α] :
    ∀ (l acc : List α) (x : α), x ∈ l.foldl insertNew acc ↔ x ∈ acc ∨ x ∈ l := by
  intro l
  induction l with
  | nil => simp
  | cons a as ih =>
    intro acc x
    simp only [List.foldl_cons, ih, mem_insertNew, List.mem_cons]
    tauto

/-- A fold of conditional appends preserves `Nodup`. -/
theorem nodup_foldl_insertNew {α : Type} [DecidableEq α] :
    ∀ (l acc : List α), acc.Nodup → (l.foldl insertNew acc).Nodup := by
  intro l
  induction l with
  | nil => exact fun acc h => h
  | cons a as ih => exact fun acc h => ih _ (nodup_insertNew h)

/-- Equation: `dedupFirst` on an empty list. -/
theorem dedupFirst_nil : dedupFirst [] = [] := by
  rw [dedupFirst]

/-- Equation: `dedupFirst` on a cons keeps the head and drops its later
occurrences. -/
theorem dedupFirst_cons (x : String) (xs : List String) :
    dedupFirst (x :: xs) = x :: dedupFirst (xs.filter (fun y => decide (y ≠ x))) := by
  rw [dedupFirst]

/-- The fold of conditional appends keeps first occurrences in order. -/
theorem foldl_insertNew_eq_append_dedupFirst :
    ∀ (l acc : List String),
      l.foldl insertNew acc = acc ++ dedupFirst (l.filter (fun y => decide (y ∉ acc))) := by
  intro l
  induction l with
  | nil => simp [dedupFirst_nil]
  | cons x xs ih =>
    intro acc
    by_cases hx : x ∈ acc
    · have h1 : insertNew acc x = acc := by simp [insertNew, hx]
      have h2 : (x :: xs).filter (fun y => decide (y ∉ acc)) =
          xs.filter (fun y => decide (y ∉ acc)) := by simp [List.filter_cons, hx]
      rw [List.foldl_cons, h1, h2, ih]
    · have h1 : insertNew acc x = acc ++ [x] := by simp [insertNew, hx]
      have h2 : (x :: xs).filter (fun y => decide (y ∉ acc)) =
          x :: xs.filter (fun y => decide (y ∉ acc)) := by simp [List.filter_cons, hx]
      rw [List.foldl_cons, h1, h2, ih (acc ++ [x]), dedupFirst_cons, List.filter_filter]
      have hfil : (xs.filter fun a => decide (a ∉ acc ++ [x])) =
          xs.filter (fun a => decide (a ≠ x) && decide (a ∉ acc)) := by
        congr 1
        funext a
        by_cases h1 : a = x <;> by_cases h2 : a ∈ acc <;>
          simp [h1, h2, List.mem_append]
      rw [hfil, List.append_assoc, List.singleton_append]

/-- The tokenizer's inner fold over the fragments of one function: it
extends the vocabulary by the kept commands and appends them to the token
sequence. -/
theorem tokenize_inner (frags : List String) :
    ∀ (v tf : List String), frags.foldl tokenizeStep (v, tf) =
      (((frags.map firstWord).filter (fun c => decide (c ∉ noiseTokens))).foldl insertNew v,
       tf ++ (frags.map firstWord).filter (fun c => decide (c ∉ noiseTokens))) := by
  induction frags with
  | nil => simp
  | cons a as ih =>
    intro v tf
    by_cases hc : firstWord a ∈ noiseTokens
    · have h1 : tokenizeStep (v, tf) a = (v, tf) := by simp [tokenizeStep, hc]
      have h2 : ((a :: as).map firstWord).filter (fun c => decide (c ∉ noiseTokens)) =
          (as.map firstWord).filter (fun c => decide (c ∉ noiseTokens)) := by
        simp [List.filter_cons, hc]
      rw [List.foldl_cons, h1, h2]
      exact ih v tf
    · have h1 : tokenizeStep (v, tf) a = (insertNew v (firstWord a), tf ++ [firstWord a]) := by
        simp [tokenizeStep, hc]
      have h2 : ((a :: as).map firstWord).filter (fun c => decide (c ∉ noiseTokens)) =
          firstWord a :: (as.map firstWord).filter (fun c => decide (c ∉ noiseTokens)) := by
        simp [List.filter_cons, hc]
      rw [List.foldl_cons, h1, h2, List.foldl_cons, ih]
      simp [List.append_assoc]

/-- One step of the tokenizer's outer fold, in terms of `tokenizeFun`. -/
theorem tokenizeOuter_eq (v : List String) (rows : List (List String)) (f : String) :
    tokenizeOuter (v, rows) f = ((tokenizeFun f).foldl insertNew v, rows ++ [tokenizeFun f]) := by
  simp only [tokenizeOuter, tokenize_inner, tokenizeFun, List.nil_append]

/-- Bridge: `tokenize_instructions` returns the first-seen fold of the token
stream as its vocabulary and the per-function token sequences. -/
theorem tokenize_instructions_eq (fns : List String) :
    tokenize_instructions fns = ((tokenStream fns).foldl insertNew [], fns.map tokenizeFun) := by
  suffices h : ∀ (gns : List String) (v : List String) (rows : List (List String)),
      gns.foldl tokenizeOuter (v, rows) =
      ((gns.map tokenizeFun).flatten.foldl insertNew v, rows ++ gns.map tokenizeFun) by
    simpa [tokenize_instructions, tokenStream] using h fns [] []
  intro gns
  induction gns with
  | nil => simp
  | cons f fs ih =>
    intro v rows
    rw [List.foldl_cons, tokenizeOuter_eq, ih]
    simp [List.foldl_append, List.append_assoc]

/-- C9: `tokenize_instructions` is deterministic (it is a pure function of
its input), and its vocabulary contains each mnemonic at most once, ordered
by first occurrence across the concatenated per-function token streams. -/
theorem tokenizer_deterministic_vocab_first_seen (fns : List String) :
    (∀ gns : List String, gns = fns → tokenize_instructions gns = tokenize_instructions fns) ∧
    (tokenize_instructions fns).1.Nodup ∧
    (tokenize_instructions fns).1 = dedupFirst (tokenStream fns) := by
  refine ⟨fun gns h => by rw [h], ?_, ?_⟩
  · rw [tokenize_instructions_eq]
    exact nodup_foldl_insertNew _ _ List.nodup_nil
  · rw [tokenize_instructions_eq]
    simpa using foldl_insertNew_eq_append_dedupFirst (tokenStream fns) []

/-- C9 witness: the property at a concrete function list. -/
theorem tokenizer_deterministic_vocab_first_seen_witness :
    tokenize_instructions ["ret"] = tokenize_instructions ["ret"] ∧
    (tokenize_instructions ["ret"]).1.Nodup ∧
    (tokenize_instructions ["ret"]).1 = dedupFirst (tokenStream ["ret"]) :=
  ⟨(tokenizer_deterministic_vocab_first_seen ["ret"]).1 ["ret"] rfl,
   (tokenizer_deterministic_vocab_first_seen ["ret"]).2.1,
   (tokenizer_deterministic_vocab_first_seen ["ret"]).2.2⟩

/-- C3 counterexample: on the input list `[""]` (one empty function string)
the tokenizer does not produce an empty token sequence, and the vocabulary
is not left untouched: splitting `""` on the quote yields the single
fragment `""`, whose first word `""` is not a noise token, so `""` becomes
a token and a vocabulary entry. -/
theorem empty_function_not_empty_sequence_cex :
    (tokenize_instructions [""]).2 ≠ [[]] ∧ (tokenize_instructions [""]).1 ≠ [] := by
  decide

/-- C3 amended: an empty function string yields the one-element token
sequence `[""]` (a single empty-string token), and the empty string is
added to the vocabulary. -/
theorem empty_function_token_sequence (fns : List String) (i : Nat)
    (h : fns.get? i = some "") :
    (tokenize_instructions fns).2.get? i = some [""] ∧ "" ∈ (tokenize_instructions fns).1 := by
  have htf : tokenizeFun "" = [""] := by decide
  constructor
  · rw [tokenize_instructions_eq]
    show (fns.map tokenizeFun).get? i = some [""]
    rw [List.get?_map, h, Option.map_some', htf]
  · rw [tokenize_instructions_eq]
    simp only [mem_foldl_insertNew]
    right
    rw [tokenStream]
    refine List.mem_flatten.mpr ⟨tokenizeFun "", List.mem_map_of_mem _ (List.get?_mem h), ?_⟩
    rw [htf]
    exact List.mem_singleton_self _

/-- C3 amended, witness at the concrete input `[""]`. -/
theorem empty_function_token_sequence_witness :
    (tokenize_instructions [""]).2.get? 0 = some [""] ∧ "" ∈ (tokenize_instructions [""]).1 :=
  empty_function_token_sequence [""] 0 rfl

/-- Evaluation: rounding zero. -/
theorem round2_zero : round2 0 = 0 := by
  unfold round2 rhe
  norm_num

/-- Evaluation: rounding one. -/
theorem round2_one : round2 1 = 1 := by
  unfold round2 rhe
  norm_num

/-- Evaluation: one half is exact at two decimals. -/
theorem round2_half : round2 (1/2) = 1/2 := by
  unfold round2 rhe
  norm_num

/-- Evaluation: one seventh rounds down to `0.14`. -/
theorem round2_seventh : round2 (1/7) = 7/50 := by
  unfold round2 rhe
  norm_num

/-- Round-half-to-even lands within one half of its argument. -/
theorem abs_rhe_sub_le (q : ℚ) : |(rhe q : ℚ) - q| ≤ 1/2 := by
  have h0 : 0 ≤ q - (⌊q⌋ : ℚ) := by
    have := Int.floor_le q
    linarith
  have h1 : q - (⌊q⌋ : ℚ) < 1 := by
    have := Int.lt_floor_add_one q
    linarith
  simp only [rhe]
  split_ifs with ha hb hc
  · rw [abs_sub_comm, abs_of_nonneg h0]
    linarith
  · rw [abs_of_nonneg (by push_cast; linarith)]
    push_cast
    linarith
  · rw [abs_sub_comm, abs_of_nonneg h0]
    linarith
  · rw [abs_of_nonneg (by push_cast; linarith)]
    push_cast
    linarith

/-- `round2` lands within `1/200` of its argument. -/
theorem abs_round2_sub_le (q : ℚ) : |round2 q - q| ≤ 1/200 := by
  unfold round2
  have h := abs_rhe_sub_le (100 * q)
  have heq : (rhe (100 * q) : ℚ)/100 - q = ((rhe (100 * q) : ℚ) - 100 * q)/100 := by ring
  rw [heq, abs_div, abs_of_pos (by norm_num : (0:ℚ) < 100)]
  calc |(rhe (100 * q) : ℚ) - 100 * q| / 100 ≤ (1/2) / 100 := by
        exact (div_le_div_right (by norm_num)).mpr h
    _ = 1/200 := by norm_num

/-- Summing the per-entry rounding errors over a list. -/
theorem abs_sum_map_round2_sub_le (l : List ℚ) :
    |(l.map round2).sum - l.sum| ≤ (l.length : ℚ) * (1/200) := by
  induction l with
  | nil => simp
  | cons a t ih =>
    simp only [List.map_cons, List.sum_cons, List.length_cons]
    have heq : round2 a + (t.map round2).sum - (a + t.sum) =
        (round2 a - a) + ((t.map round2).sum - t.sum) := by ring
    rw [heq]
    calc |(round2 a - a) + ((t.map round2).sum - t.sum)|
        ≤ |round2 a - a| + |(t.map round2).sum - t.sum| := abs_add _ _
      _ ≤ 1/200 + (t.length : ℚ) * (1/200) := add_le_add (abs_round2_sub_le a) ih
      _ = ((t.length : ℚ) + 1) * (1/200) := by ring
      _ = ((t.length + 1 : ℕ) : ℚ) * (1/200) := by push_cast; ring

/-- Inversion of a successful normalization with at least one category. -/
theorem percList_ok_pos {k : Nat} {occ : List Nat} {row : List ℚ}
    (h : percList k occ = Except.ok row) (hk : k ≠ 0) :
    occ.sum ≠ 0 ∧
    row = (List.range k).map (fun i => round2 ((occ.getD i 0 : ℚ) / (occ.sum : ℚ))) := by
  unfold percList at h
  rw [if_neg hk] at h
  by_cases hs : occ.sum = 0
  · rw [if_pos hs] at h
    cases h
  · rw [if_neg hs] at h
    exact ⟨hs, (Except.ok.inj h).symm⟩

/-- Reading every index of a list back gives the list. -/
theorem map_getD_range (l : List ℕ) :
    (List.range l.length).map (fun i => l.getD i 0) = l := by
  induction l with
  | nil => simp
  | cons a t ih =>
    simp only [List.length_cons, List.range_succ_eq_map, List.map_cons, List.map_map,
      List.getD_cons_zero]
    refine congrArg (a :: ·) ?_
    simpa [Function.comp_def, List.getD_cons_succ] using ih

/-- Casting a sum of naturals into the rationals. -/
theorem natCast_sum_eq (l : List ℕ) : ((l.sum : ℕ) : ℚ) = (l.map (fun n : ℕ => (n : ℚ))).sum := by
  induction l with
  | nil => simp
  | cons a t ih => simp [ih]

/-- Dividing every entry of a list by a constant divides the sum. -/
theorem sum_map_div (l : List ℚ) (c : ℚ) : (l.map (fun x => x / c)).sum = l.sum / c := by
  induction l with
  | nil => simp
  | cons a t ih => simp [ih, add_div]

/-- An invariant preserved by every successful step is preserved by a
successful `exceptFold`. -/
theorem exceptFold_invariant {σ α : Type} (P : σ → Prop) {f : σ → α → Except PyErr σ}
    (hf : ∀ s a s', f s a = Except.ok s' → P s → P s') :
    ∀ (l : List α) (s s' : σ), exceptFold f s l = Except.ok s' → P s → P s' := by
  intro l
  induction l with
  | nil =>
    intro s s' h hp
    simp only [exceptFold] at h
    exact (Except.ok.inj h) ▸ hp
  | cons a as ih =>
    intro s s' h hp
    simp only [exceptFold] at h
    split at h
    · next s2 hfa => exact ih s2 s' h (hf s a s2 hfa hp)
    · next e hfa => cases h

/-- Elements of a successful `exceptMap` come from successful applications
of the body. -/
theorem exceptMap_ok_mem {α β : Type} {f : α → Except PyErr β} :
    ∀ {l : List α} {bs : List β} {b : β},
      exceptMap f l = Except.ok bs → b ∈ bs → ∃ a, a ∈ l ∧ f a = Except.ok b := by
  intro l
  induction l with
  | nil =>
    intro bs b h hb
    simp only [exceptMap] at h
    rw [← Except.ok.inj h] at hb
    cases hb
  | cons a as ih =>
    intro bs b h hb
    simp only [exceptMap] at h
    split at h
    · cases h
    · next b0 hfa =>
      split at h
      · cases h
      · next bs0 hrest =>
        rw [← Except.ok.inj h] at hb
        rcases List.mem_cons.mp hb with hb0 | hbs
        · exact ⟨a, List.mem_cons_self a as, hb0 ▸ hfa⟩
        · obtain ⟨a', ha', hfa'⟩ := ih hrest hbs
          exact ⟨a', List.mem_cons_of_mem a ha', hfa'⟩

/-- A successful counting step does not change the length of the
occurrence vector. -/
theorem countStep_ok_occ_length {categories function : List String} {st st' : CountSt}
    {item : (String × Nat) × String} (h : countStep categories function st item = Except.ok st') :
    st'.occ.length = st.occ.length := by
  unfold countStep at h
  split at h
  · cases h
  · dsimp only at h
    repeat' split at h
    all_goals cases h
    all_goals simp [List.length_set]

/-- C1: end-to-end example.  With the modelled default glossary (which
places `mov` and `add` under the distinct categories "Data transfer" and
"Arithmetic" and `jmp` under "Control flow"), `complete_preprocessing` on
the two example functions and no glossary file returns the table with rows
`0.50, 0.50, 0.00` and `0.00, 0.00, 1.00`. -/
theorem complete_preprocessing_example :
    complete_preprocessing
      ["\x27mov eax, ebx\x27\x27add eax, 1\x27", "\x27jmp 0x10\x27\x27jmp 0x20\x27"]
      GlossaryArg.none (fun _ => []) =
    Except.ok ⟨["Data transfer", "Arithmetic", "Control flow"],
      [[0.50, 0.50, 0.00], [0.00, 0.00, 1.00]]⟩ := by
  have ht : tokenize_instructions
      ["\x27mov eax, ebx\x27\x27add eax, 1\x27", "\x27jmp 0x10\x27\x27jmp 0x20\x27"] =
      (["", "mov", "add", "jmp"], [["", "mov", "", "add", ""], ["", "jmp", "", "jmp", ""]]) := by
    decide
  have hc : token_categorizer ["", "mov", "add", "jmp"] GlossaryArg.none (fun _ => [])
      defaultGlossary =
      Except.ok ([(("Data transfer", 0), "mov"), (("Arithmetic", 0), "add"),
        (("Control flow", 0), "jmp")], false) := by decide
  have hdc : distinctCats [(("Data transfer", 0), "mov"), (("Arithmetic", 0), "add"),
      (("Control flow", 0), "jmp")] = ["Data transfer", "Arithmetic", "Control flow"] := by
    decide
  have hf1 : exceptFold
      (countStep ["Data transfer", "Arithmetic", "Control flow"] ["", "mov", "", "add", ""])
      ⟨0, [], List.replicate (["Data transfer", "Arithmetic", "Control flow"] : List String).length 0⟩
      [(("Data transfer", 0), "mov"), (("Arithmetic", 0), "add"), (("Control flow", 0), "jmp")] =
      Except.ok ⟨2, ["mov", "add"], [1, 1, 0]⟩ := by decide
  have hf2 : exceptFold
      (countStep ["Data transfer", "Arithmetic", "Control flow"] ["", "jmp", "", "jmp", ""])
      ⟨0, [], List.replicate (["Data transfer", "Arithmetic", "Control flow"] : List String).length 0⟩
      [(("Data transfer", 0), "mov"), (("Arithmetic", 0), "add"), (("Control flow", 0), "jmp")] =
      Except.ok ⟨2, ["jmp"], [0, 0, 2]⟩ := by decide
  have hp1 : percList (["Data transfer", "Arithmetic", "Control flow"] : List String).length
      [1, 1, 0] = Except.ok [0.50, 0.50, 0.00] := by
    unfold percList
    norm_num [List.range_succ]
    unfold round2 rhe
    norm_num
  have hp2 : percList (["Data transfer", "Arithmetic", "Control flow"] : List String).length
      [0, 0, 2] = Except.ok [0.00, 0.00, 1.00] := by
    unfold percList
    norm_num [List.range_succ]
    unfold round2 rhe
    norm_num
  simp only [complete_preprocessing, ht, hc]
  simp only [assembly_dataframer, hdc, exceptMap, hf1, hf2, hp1, hp2]

/-- C2 counterexample: a function none of whose tokens matches any assigned
mnemonic makes `assembly_dataframer` raise the generic built-in
`ZeroDivisionError` (the bare division `token_occ[i]/sum(token_occ)`), not a
dedicated domain-specific error kind such as `NoCategorizedTokens`: the
embedded error type faithfully carries only the built-in Python exceptions
the code can raise. -/
theorem dataframer_zero_tokens_generic_error_cex :
    assembly_dataframer [["foo"]] [(("A", 0), "mov")] =
      Except.error PyErr.zeroDivisionError := by
  decide

/-- C2 amended: when a function's counting loop completes with a zero total
occurrence count and there is at least one category, `assembly_dataframer`
fails by raising Python's built-in `ZeroDivisionError` (it does not
propagate NaN or infinity, and it does not raise a dedicated
domain-specific error). -/
theorem dataframer_zero_tokens_zero_division (d : TokenDict) (fn : List String) (st : CountSt)
    (hfold : exceptFold (countStep (distinctCats d) fn)
      ⟨0, [], List.replicate (distinctCats d).length 0⟩ d = Except.ok st)
    (hsum : st.occ.sum = 0) (hne : distinctCats d ≠ []) :
    assembly_dataframer [fn] d = Except.error PyErr.zeroDivisionError := by
  have hk : (distinctCats d).length ≠ 0 := fun h => hne (List.eq_nil_of_length_eq_zero h)
  have hp : percList (distinctCats d).length st.occ = Except.error PyErr.zeroDivisionError := by
    unfold percList
    rw [if_neg hk, if_pos hsum]
  simp only [assembly_dataframer, exceptMap, hfold, hp]

/-- C2 amended, witness: the hypotheses and conclusion at the concrete
degenerate input. -/
theorem dataframer_zero_tokens_zero_division_witness :
    exceptFold (countStep (distinctCats [(("A", 0), "mov")]) ["foo"])
      ⟨0, [], List.replicate (distinctCats [(("A", 0), "mov")]).length 0⟩ [(("A", 0), "mov")] =
      Except.ok ⟨0, [], [0]⟩ ∧
    assembly_dataframer [["foo"]] [(("A", 0), "mov")] = Except.error PyErr.zeroDivisionError :=
  ⟨by decide,
   dataframer_zero_tokens_zero_division [(("A", 0), "mov")] ["foo"] ⟨0, [], [0]⟩
     (by decide) (by decide) (by decide)⟩

/-- C4 counterexample: with seven categories each holding one mnemonic that
occurs once, every entry is `round(1/7, 2) = 0.14` and the row sums to
`0.98`, which is **not** within `±0.01` of `1.00`. -/
theorem dataframer_row_sum_tolerance_cex :
    assembly_dataframer [["a", "b", "c", "d", "e", "f", "g"]]
      [(("C1", 0), "a"), (("C2", 0), "b"), (("C3", 0), "c"), (("C4", 0), "d"),
       (("C5", 0), "e"), (("C6", 0), "f"), (("C7", 0), "g")] =
      Except.ok ⟨["C1", "C2", "C3", "C4", "C5", "C6", "C7"],
        [[7/50, 7/50, 7/50, 7/50, 7/50, 7/50, 7/50]]⟩ ∧
    ¬ |([(7:ℚ)/50, 7/50, 7/50, 7/50, 7/50, 7/50, 7/50].sum : ℚ) - 1| ≤ 1/100 := by
  constructor
  · have hdc : distinctCats [(("C1", 0), "a"), (("C2", 0), "b"), (("C3", 0), "c"),
        (("C4", 0), "d"), (("C5", 0), "e"), (("C6", 0), "f"), (("C7", 0), "g")] =
        ["C1", "C2", "C3", "C4", "C5", "C6", "C7"] := by decide
    have hf : exceptFold
        (countStep ["C1", "C2", "C3", "C4", "C5", "C6", "C7"] ["a", "b", "c", "d", "e", "f", "g"])
        ⟨0, [], List.replicate (["C1", "C2", "C3", "C4", "C5", "C6", "C7"] : List String).length 0⟩
        [(("C1", 0), "a"), (("C2", 0), "b"), (("C3", 0), "c"), (("C4", 0), "d"),
         (("C5", 0), "e"), (("C6", 0), "f"), (("C7", 0), "g")] =
        Except.ok ⟨6, ["a", "b", "c", "d", "e", "f", "g"], [1, 1, 1, 1, 1, 1, 1]⟩ := by decide
    have hp : percList (["C1", "C2", "C3", "C4", "C5", "C6", "C7"] : List String).length
        [1, 1, 1, 1, 1, 1, 1] =
        Except.ok [7/50, 7/50, 7/50, 7/50, 7/50, 7/50, 7/50] := by
      unfold percList
      norm_num [List.range_succ]
      unfold round2 rhe
      norm_num
    simp only [assembly_dataframer, hdc, exceptMap, hf, hp]
  · norm_num [abs_le]

/-- C4 amended: for every row the dataframer actually produces for a
function with at least one categorized token, the row sum is within
`(number of columns) / 200` of `1`; the flat `±0.01` tolerance claimed by
the spec only follows when there are at most two columns. -/
theorem dataframer_row_sum_close_to_one (ts : List (List String)) (d : TokenDict)
    (F : Frame) (row : List ℚ) (hF : assembly_dataframer ts d = Except.ok F)
    (hrow : row ∈ F.rows) (hne : row ≠ []) :
    |row.sum - 1| ≤ (F.cols.length : ℚ) / 200 := by
  unfold assembly_dataframer at hF
  dsimp only at hF
  split at hF
  · cases hF
  · next rows hmap =>
    have hFe : F = ⟨distinctCats d, rows⟩ := (Except.ok.inj hF).symm
    subst hFe
    simp only at hrow
    obtain ⟨fn, hfn, hrun⟩ := exceptMap_ok_mem hmap hrow
    split at hrun
    · cases hrun
    · next st hfold =>
      have hk : (distinctCats d).length ≠ 0 := by
        intro h0
        unfold percList at hrun
        rw [if_pos h0] at hrun
        exact hne (Except.ok.inj hrun).symm
      obtain ⟨hs, hrow_eq⟩ := percList_ok_pos hrun hk
      have hlen : st.occ.length = (distinctCats d).length :=
        exceptFold_invariant (fun s => s.occ.length = (distinctCats d).length)
          (fun s a s' h hp => (countStep_ok_occ_length h).trans hp) d _ st hfold
          (by simp)
      have hS0 : ((st.occ.sum : ℕ) : ℚ) ≠ 0 := Nat.cast_ne_zero.mpr hs
      have hys : ((List.range (distinctCats d).length).map
          (fun i => ((st.occ.getD i 0 : ℕ) : ℚ) / ((st.occ.sum : ℕ) : ℚ))).sum = 1 := by
        have h1 : (List.range (distinctCats d).length).map
            (fun i => ((st.occ.getD i 0 : ℕ) : ℚ) / ((st.occ.sum : ℕ) : ℚ)) =
            ((List.range (distinctCats d).length).map
              (fun i => ((st.occ.getD i 0 : ℕ) : ℚ))).map
              (fun x => x / ((st.occ.sum : ℕ) : ℚ)) := by
          rw [List.map_map]
          rfl
        have h2 : (List.range (distinctCats d).length).map
            (fun i => ((st.occ.getD i 0 : ℕ) : ℚ)) =
            st.occ.map (fun n : ℕ => (n : ℚ)) := by
          rw [← hlen]
          rw [show (fun i => ((st.occ.getD i 0 : ℕ) : ℚ)) =
            (fun n : ℕ => (n : ℚ)) ∘ (fun i => st.occ.getD i 0) from rfl]
          rw [← List.map_map, map_getD_range]
        rw [h1, h2, sum_map_div, ← natCast_sum_eq]
        exact div_self hS0
      have hrow2 : row = ((List.range (distinctCats d).length).map
          (fun i => ((st.occ.getD i 0 : ℕ) : ℚ) / ((st.occ.sum : ℕ) : ℚ))).map round2 := by
        rw [hrow_eq, List.map_map]
        rfl
      have hbound := abs_sum_map_round2_sub_le ((List.range (distinctCats d).length).map
          (fun i => ((st.occ.getD i 0 : ℕ) : ℚ) / ((st.occ.sum : ℕ) : ℚ)))
      rw [hys] at hbound
      have hlen2 : ((List.range (distinctCats d).length).map
          (fun i => ((st.occ.getD i 0 : ℕ) : ℚ) / ((st.occ.sum : ℕ) : ℚ))).length =
          (distinctCats d).length := by simp
      rw [hlen2] at hbound
      rw [hrow2]
      calc |((((List.range (distinctCats d).length).map
            (fun i => ((st.occ.getD i 0 : ℕ) : ℚ) / ((st.occ.sum : ℕ) : ℚ))).map round2).sum : ℚ)
            - 1| ≤ ((distinctCats d).length : ℚ) * (1/200) := hbound
        _ = (((Frame.mk (distinctCats d) rows).cols.length : ℕ) : ℚ) / 200 := by
            simp only [Frame.mk.injEq]
            ring

/-- C4 amended, witness: a one-category table where the bound holds. -/
theorem dataframer_row_sum_close_to_one_witness :
    assembly_dataframer [["x"]] [(("A", 0), "x")] =
      Except.ok ⟨["A"], [[1]]⟩ ∧
    |([(1:ℚ)].sum : ℚ) - 1| ≤ (([("A" : String)].length : ℕ) : ℚ) / 200 := by
  have hF : assembly_dataframer [["x"]] [(("A", 0), "x")] = Except.ok ⟨["A"], [[1]]⟩ := by
    have hdc : distinctCats [(("A", 0), "x")] = ["A"] := by decide
    have hf : exceptFold (countStep ["A"] ["x"])
        ⟨0, [], List.replicate (["A"] : List String).length 0⟩ [(("A", 0), "x")] =
        Except.ok ⟨0, ["x"], [1]⟩ := by decide
    have hp : percList (["A"] : List String).length [1] = Except.ok [1] := by
      unfold percList
      norm_num [List.range_succ]
      unfold round2 rhe
      norm_num
    simp only [assembly_dataframer, hdc, exceptMap, hf, hp]
  exact ⟨hF, dataframer_row_sum_close_to_one [["x"]] [(("A", 0), "x")] ⟨["A"], [[1]]⟩ [1]
    hF (by simp) (by simp)⟩

/-- Membership in a fold of conditional appends of projections. -/
theorem mem_foldl_insertNew_proj {α β : Type} [DecidableEq α] (g : β → α) :
    ∀ (l : List β) (acc : List α) (x : α),
      x ∈ l.foldl (fun a b => insertNew a (g b)) acc ↔ x ∈ acc ∨ ∃ b ∈ l, g b = x := by
  intro l
  induction l with
  | nil => simp
  | cons a as ih =>
    intro acc x
    simp only [List.foldl_cons, ih, mem_insertNew, List.mem_cons]
    constructor
    · rintro ((hx | rfl) | ⟨b, hb, rfl⟩)
      · exact Or.inl hx
      · exact Or.inr ⟨a, Or.inl rfl, rfl⟩
      · exact Or.inr ⟨b, Or.inr hb, rfl⟩
    · rintro (hx | ⟨b, hb | hb, rfl⟩)
      · exact Or.inl (Or.inl hx)
      · exact Or.inl (Or.inr (by rw [hb]))
      · exact Or.inr ⟨b, hb, rfl⟩

/-- A fold of conditional appends of projections preserves `Nodup`. -/
theorem nodup_foldl_insertNew_proj {α β : Type} [DecidableEq α] (g : β → α) :
    ∀ (l : List β) (acc : List α), acc.Nodup →
      (l.foldl (fun a b => insertNew a (g b)) acc).Nodup := by
  intro l
  induction l with
  | nil => exact fun acc h => h
  | cons a as ih => exact fun acc h => ih _ (nodup_insertNew h)

/-- C7 counterexample: `duplicate_control` is shared across categories, so a
mnemonic assigned to two categories is tallied only into the first one: with
`x` under both `A` and `B` and the token sequence `["x"]`, the per-category
raw counts end as `[1, 0]`, not `[1, 1]` as the claim demands. -/
theorem duplicate_mnemonic_not_double_counted_cex :
    exceptFold (countStep ["A", "B"] ["x"]) ⟨0, [], [0, 0]⟩
      [(("A", 0), "x"), (("B", 0), "x")] = Except.ok ⟨1, ["x"], [1, 0]⟩ ∧
    ¬ ∃ i dup, exceptFold (countStep ["A", "B"] ["x"]) ⟨0, [], [0, 0]⟩
      [(("A", 0), "x"), (("B", 0), "x")] = Except.ok ⟨i, dup, [1, 1]⟩ := by
  have hfold : exceptFold (countStep ["A", "B"] ["x"]) ⟨0, [], [0, 0]⟩
      [(("A", 0), "x"), (("B", 0), "x")] = Except.ok ⟨1, ["x"], [1, 0]⟩ := by decide
  refine ⟨hfold, ?_⟩
  rintro ⟨i, dup, h⟩
  rw [hfold] at h
  have h2 := congrArg (fun r => match r with
    | Except.ok st => CountSt.occ st
    | Except.error _ => []) h
  simp at h2

/-- C7 amended: when a mnemonic `x` is assigned to two distinct categories
`A` and `B` and occurs in the function, all its instances are tallied only
into the first category: the produced row is `[1.0, 0.0]`, never split or
doubled. -/
theorem duplicate_mnemonic_first_category_only (A B x : String) (fn : List String)
    (hAB : A ≠ B) (hx : x ∈ fn) :
    assembly_dataframer [fn] [((A, 0), x), ((B, 0), x)] =
      Except.ok ⟨[A, B], [[1, 0]]⟩ := by
  have hcount : fn.count x ≠ 0 := (List.count_pos_iff.mpr hx).ne'
  have hdc : distinctCats [((A, 0), x), ((B, 0), x)] = [A, B] := by
    simp [distinctCats, insertNew, hAB.symm]
  have step1 : countStep [A, B] fn ⟨0, [], List.replicate ([A, B] : List String).length 0⟩
      ((A, 0), x) = Except.ok ⟨0, [x], [fn.count x, 0]⟩ := by
    unfold countStep
    rw [show pyIdx [A, B] 0 = Except.ok A from rfl]
    dsimp only
    rw [if_neg (fun h : A ≠ A => h rfl), if_pos hx,
      if_neg (List.not_mem_nil x)]
    rw [dif_pos (by norm_num : 0 < (List.replicate ([A, B] : List String).length 0).length)]
    simp [List.replicate, List.set]
  have step2 : countStep [A, B] fn ⟨0, [x], [fn.count x, 0]⟩ ((B, 0), x) =
      Except.ok ⟨1, [x], [fn.count x, 0]⟩ := by
    unfold countStep
    rw [show pyIdx [A, B] 0 = Except.ok A from rfl]
    dsimp only
    rw [if_pos (fun h : A = B => hAB h), if_pos hx,
      if_pos (List.mem_singleton_self x)]
  have hf : exceptFold (countStep [A, B] fn)
      ⟨0, [], List.replicate ([A, B] : List String).length 0⟩
      [((A, 0), x), ((B, 0), x)] = Except.ok ⟨1, [x], [fn.count x, 0]⟩ := by
    simp only [exceptFold, step1, step2]
  have hcast : ((fn.count x : ℕ) : ℚ) ≠ 0 := Nat.cast_ne_zero.mpr hcount
  have hp : percList ([A, B] : List String).length [fn.count x, 0] = Except.ok [1, 0] := by
    unfold percList
    rw [if_neg (by norm_num : ¬([A, B] : List String).length = 0)]
    rw [if_neg (by simpa using hcount)]
    have : (List.range ([A, B] : List String).length).map
        (fun i => round2 ((([fn.count x, 0].getD i 0 : ℕ) : ℚ) / (([fn.count x, 0].sum : ℕ) : ℚ))) =
        [round2 1, round2 0] := by
      have h1 : ([fn.count x, 0] : List ℕ).sum = fn.count x := by simp
      have hr : List.range ([A, B] : List String).length = [0, 1] := by
        norm_num [List.range_succ]
      rw [hr]
      simp only [List.map_cons, List.map_nil, List.getD_cons_zero, List.getD_cons_succ, h1]
      rw [div_self hcast, Nat.cast_zero, zero_div]
    rw [this, round2_one, round2_zero]
  simp only [assembly_dataframer, hdc, exceptMap, hf, hp]

/-- C7 amended, witness at concrete values. -/
theorem duplicate_mnemonic_first_category_only_witness :
    ("A" : String) ≠ "B" ∧ ("x" : String) ∈ ["x"] ∧
    assembly_dataframer [["x"]] [(("A", 0), "x"), (("B", 0), "x")] =
      Except.ok ⟨["A", "B"], [[1, 0]]⟩ :=
  ⟨by decide, by decide,
   duplicate_mnemonic_first_category_only "A" "B" "x" ["x"] (by decide) (by decide)⟩

/-- C8: the number of table columns equals the number of distinct category
names of the assignment produced by `token_categorizer`, whatever the list
of token sequences (including the empty list): the columns are exactly
`distinctCats d`, which is duplicate-free. -/
theorem dataframer_columns_eq_categories (token_list : List String) (arg : GlossaryArg)
    (fs : String → List String) (d : TokenDict) (w : Bool) (ts : List (List String)) (F : Frame)
    (hc : token_categorizer token_list arg fs defaultGlossary = Except.ok (d, w))
    (hF : assembly_dataframer ts d = Except.ok F) :
    F.cols = distinctCats d ∧ F.cols.Nodup := by
  have hcols : F.cols = distinctCats d := by
    unfold assembly_dataframer at hF
    dsimp only at hF
    split at hF
    · cases hF
    · rw [← Except.ok.inj hF]
  refine ⟨hcols, ?_⟩
  rw [hcols]
  exact nodup_foldl_insertNew_proj (fun item => item.1.1) d [] List.nodup_nil

/-- C8 witness: the default assignment for the vocabulary `["mov"]` and the
empty function list. -/
theorem dataframer_columns_eq_categories_witness :
    (Frame.mk ["Data transfer", "Arithmetic", "Control flow"] []).cols =
      distinctCats [(("Data transfer", 0), "mov"), (("Arithmetic", 0), ""),
        (("Control flow", 0), "")] ∧
    (Frame.mk ["Data transfer", "Arithmetic", "Control flow"] []).cols.Nodup :=
  dataframer_columns_eq_categories ["mov"] GlossaryArg.none (fun _ => [])
    [(("Data transfer", 0), "mov"), (("Arithmetic", 0), ""), (("Control flow", 0), "")]
    false [] (Frame.mk ["Data transfer", "Arithmetic", "Control flow"] [])
    (by decide) (by decide)

/-- The file-mode scan appends one feature exactly per marker line. -/
theorem fileFold_features_length (tl : List String) (c : Char) :
    ∀ (ls : List String) (st : FileSt),
      ((ls.foldl (fileStep tl c) st).features).length =
        st.features.length + (ls.filter (fun ln => lineContains ln c)).length := by
  intro ls
  induction ls with
  | nil => simp
  | cons l rest ih =>
    intro st
    rw [List.foldl_cons, List.filter_cons, ih]
    by_cases hl : lineContains l c
    · have h1 : (fileStep tl c st l).features.length = st.features.length + 1 := by
        simp [fileStep, hl]
      rw [h1]
      simp only [hl, if_pos, List.length_cons]
      omega
    · have h1 : (fileStep tl c st l).features = st.features := by
        unfold fileStep
        rw [if_neg (by simpa using hl)]
        split <;> rfl
      rw [h1]
      simp [hl]

/-- `defaultdict` update never empties the dictionary. -/
theorem addStr_ne_nil (d : TokenDict) (k : String × Nat) (v : String) : addStr d k v ≠ [] := by
  cases d with
  | nil => simp [addStr]
  | cons a rest =>
    obtain ⟨k', v'⟩ := a
    unfold addStr
    split <;> simp

/-- The file-mode scan never empties the dictionary. -/
theorem fileFold_dict_ne_nil (tl : List String) (c : Char) :
    ∀ (ls : List String) (st : FileSt), st.dict ≠ [] →
      ((ls.foldl (fileStep tl c) st).dict) ≠ [] := by
  intro ls
  induction ls with
  | nil => exact fun st h => h
  | cons l rest ih =>
    intro st hst
    rw [List.foldl_cons]
    apply ih
    by_cases hmark : lineContains l c
    · simp only [fileStep, hmark, if_true]
      exact addStr_ne_nil _ _ _
    · simp only [fileStep, hmark, if_false, Bool.false_eq_true]
      split
      · exact addStr_ne_nil _ _ _
      · exact hst

/-- A nonempty assignment has at least one distinct category. -/
theorem distinctCats_ne_nil {d : TokenDict} (hd : d ≠ []) : distinctCats d ≠ [] := by
  obtain ⟨it, rest, rfl⟩ := List.exists_cons_of_ne_nil hd
  have hmem : it.1.1 ∈ distinctCats (it :: rest) := by
    unfold distinctCats
    exact (mem_foldl_insertNew_proj (fun item => item.1.1) (it :: rest) [] it.1.1).mpr
      (Or.inr ⟨it, List.mem_cons_self it rest, rfl⟩)
  exact List.ne_nil_of_mem hmem

/-- C5: in file mode, the insufficient-glossary warning is printed exactly
when the vocabulary size exceeds (number of lines − number of marker
lines), and the assignment is returned regardless of the warning. -/
theorem insufficient_glossary_warning (token_list : List String) (path : String)
    (fs : String → List String) (l0 : String) (rest : List String) (c : Char) (cs : List Char)
    (hls : fs path = l0 :: rest) (hdata : l0.data = c :: cs) :
    ∃ d, token_categorizer token_list (GlossaryArg.str path) fs defaultGlossary =
      Except.ok (d, decide (token_list.length >
        (l0 :: rest).length - ((l0 :: rest).filter (fun ln => lineContains ln c)).length)) := by
  unfold token_categorizer token_categorizer_file
  dsimp only
  rw [hls]
  dsimp only
  rw [hdata]
  dsimp only
  refine ⟨((l0 :: rest).foldl (fileStep token_list c) ⟨[], 0, []⟩).dict, ?_⟩
  have hfl := fileFold_features_length token_list c (l0 :: rest) (⟨[], 0, []⟩ : FileSt)
  simp only [hfl]
  norm_num

/-- C5 witness: a two-line glossary with one marker line and a two-token
vocabulary triggers the warning, and the assignment is still returned. -/
theorem insufficient_glossary_warning_witness :
    ∃ d w, token_categorizer ["mov", "add"] (GlossaryArg.str "g")
      (fun _ => ["*A*", "mov"]) defaultGlossary = Except.ok (d, w) ∧ w = true := by
  obtain ⟨d, hd⟩ := insufficient_glossary_warning ["mov", "add"] "g"
    (fun _ => ["*A*", "mov"]) "*A*" ["mov"] (Char.ofNat 42) ['A', Char.ofNat 42] rfl rfl
  exact ⟨d, _, hd, by decide⟩

/-- C6 counterexample: on an empty glossary file, `token_categorizer` does
not return an assignment with no categories — it raises `IndexError` at
`lines[0][0]`. -/
theorem malformed_glossary_cex :
    token_categorizer ["mov"] (GlossaryArg.str "glossary.txt") (fun _ => []) defaultGlossary =
      Except.error PyErr.indexError := by
  decide

/-- C6 amended: an empty glossary file makes file mode fail with
`IndexError`; a nonempty glossary file always discovers at least one
category, because the marker is defined as the first character of the first
line, so the first line is always a marker line — file mode can never
return an assignment with no categories. -/
theorem malformed_glossary_behavior (token_list : List String) (path : String)
    (fs : String → List String) :
    (fs path = [] →
      token_categorizer token_list (GlossaryArg.str path) fs defaultGlossary =
        Except.error PyErr.indexError) ∧
    (∀ l0 rest c cs, fs path = l0 :: rest → l0.data = c :: cs →
      ∃ d w, token_categorizer token_list (GlossaryArg.str path) fs defaultGlossary =
        Except.ok (d, w) ∧ distinctCats d ≠ []) := by
  constructor
  · intro h
    unfold token_categorizer token_categorizer_file
    dsimp only
    rw [h]
  · intro l0 rest c cs hls hdata
    unfold token_categorizer token_categorizer_file
    dsimp only
    rw [hls]
    dsimp only
    rw [hdata]
    dsimp only
    refine ⟨_, _, rfl, ?_⟩
    apply distinctCats_ne_nil
    rw [List.foldl_cons]
    apply fileFold_dict_ne_nil
    have hcon : lineContains l0 c := by
      simp [lineContains, hdata]
    unfold fileStep
    rw [if_pos hcon]
    exact addStr_ne_nil _ _ _

/-- C6 amended, witness: both conjuncts at concrete inputs. -/
theorem malformed_glossary_behavior_witness :
    token_categorizer ["mov"] (GlossaryArg.str "g") (fun _ => []) defaultGlossary =
      Except.error PyErr.indexError ∧
    ∃ d w, token_categorizer ["mov"] (GlossaryArg.str "g") (fun _ => ["*A*"]) defaultGlossary =
      Except.ok (d, w) ∧ distinctCats d ≠ [] :=
  ⟨(malformed_glossary_behavior ["mov"] "g" (fun _ => [])).1 rfl,
   (malformed_glossary_behavior ["mov"] "g" (fun _ => ["*A*"])).2 "*A*" []
     (Char.ofNat 42) ['A', Char.ofNat 42] rfl rfl⟩

/-- The `f_i` skeleton of one default-mode step: the category-pointer moves
and index errors of `defaultStep` depend only on `f_i` and the pair's
category, not on `e_i`, the dictionary or the vocabulary. -/
def fiStep (features : List String) (f : Nat) (cat : String) : Except PyErr Nat :=
  match pyIdx features f with
  | Except.error er => Except.error er
  | Except.ok cur =>
    if cat ≠ cur then
      match pyIdx features (f + 1) with
      | Except.error er => Except.error er
      | Except.ok _ => Except.ok (f + 1)
    else Except.ok f

/-- A successful skeleton step forces a successful `defaultStep` with the
same resulting category pointer. -/
theorem defaultStep_simulates (tl features : List String) (st : DefSt)
    (item : (String × Nat) × String) (f1 : Nat)
    (h : fiStep features st.f item.1.1 = Except.ok f1) :
    ∃ e' d', defaultStep tl features st item = Except.ok ⟨f1, e', d'⟩ := by
  unfold fiStep at h
  unfold defaultStep
  cases hp : pyIdx features st.f with
  | error er =>
    rw [hp] at h
    dsimp only at h
    cases h
  | ok cur =>
    rw [hp] at h
    dsimp only at h ⊢
    by_cases hne : item.1.1 ≠ cur
    · rw [if_pos hne] at h ⊢
      cases hp2 : pyIdx features (st.f + 1) with
      | error er =>
        rw [hp2] at h
        dsimp only at h
        cases h
      | ok nxt =>
        rw [hp2] at h
        dsimp only at h ⊢
        obtain rfl : st.f + 1 = f1 := Except.ok.inj h
        by_cases hm : item.2 ∈ tl
        · rw [if_pos hm, hp2]
          exact ⟨1, _, rfl⟩
        · rw [if_neg hm]
          exact ⟨0, _, rfl⟩
    · rw [if_neg hne] at h ⊢
      obtain rfl : st.f = f1 := Except.ok.inj h
      dsimp only
      by_cases hm : item.2 ∈ tl
      · rw [if_pos hm, hp]
        exact ⟨st.e + 1, _, rfl⟩
      · rw [if_neg hm]
        exact ⟨st.e, st.dict, rfl⟩

/-- A successful skeleton fold forces a successful default-mode fold. -/
theorem defaultFold_simulates (tl features : List String) :
    ∀ (items : List ((String × Nat) × String)) (st : DefSt) (f1 : Nat),
      exceptFold (fun f it => fiStep features f it.1.1) st.f items = Except.ok f1 →
      ∃ st' : DefSt, exceptFold (defaultStep tl features) st items = Except.ok st' := by
  intro items
  induction items with
  | nil =>
    intro st f1 _
    exact ⟨st, rfl⟩
  | cons it rest ih =>
    intro st f1 h
    simp only [exceptFold] at h ⊢
    split at h
    · next f2 hfi =>
      obtain ⟨e', d', hds⟩ := defaultStep_simulates tl features st it f2 hfi
      rw [hds]
      exact ih ⟨f2, e', d'⟩ f1 h
    · next er hfi => cases h

/-- With the modelled default glossary, default mode succeeds for every
vocabulary. -/
theorem default_mode_ok (token_list : List String) :
    ∃ d, token_categorizer_default token_list defaultGlossary = Except.ok d := by
  have hski : exceptFold (fun f it => fiStep defaultGlossary.categories f it.1.1) 0
      defaultGlossary.dictionary = Except.ok 2 := by decide
  obtain ⟨st', hst'⟩ := defaultFold_simulates token_list defaultGlossary.categories
    defaultGlossary.dictionary ⟨0, 0, addStr [] ("Data transfer", 0) ""⟩ 2 hski
  refine ⟨st'.dict, ?_⟩
  unfold token_categorizer_default
  rw [show pyIdx defaultGlossary.categories 0 = Except.ok "Data transfer" from rfl]
  dsimp only
  rw [hst']

/-- C10: `token_categorizer` reads a glossary file only when the argument is
a non-None `str`; any other argument (a `Path`, a list, ...) silently runs
the built-in default mode — the result is the same as with `None`, it is
independent of the file system, and no error is raised. -/
theorem nonstring_glossary_falls_back_to_default (token_list : List String)
    (fs fs' : String → List String) (arg : GlossaryArg)
    (hn : arg ≠ GlossaryArg.none) (hs : ∀ p, arg ≠ GlossaryArg.str p) :
    token_categorizer token_list arg fs defaultGlossary =
      token_categorizer token_list GlossaryArg.none fs' defaultGlossary ∧
    ∃ d, token_categorizer token_list arg fs defaultGlossary = Except.ok (d, false) := by
  obtain ⟨d0, hd0⟩ := default_mode_ok token_list
  cases arg with
  | none => exact absurd rfl hn
  | str p => exact absurd rfl (hs p)
  | path p =>
    refine ⟨rfl, d0, ?_⟩
    unfold token_categorizer
    rw [hd0]
  | list l =>
    refine ⟨rfl, d0, ?_⟩
    unfold token_categorizer
    rw [hd0]

/-- C10, witness: a `Path`-typed argument at concrete inputs. -/
theorem nonstring_glossary_falls_back_to_default_witness :
    token_categorizer ["mov"] (GlossaryArg.path "g") (fun _ => ["*X*"]) defaultGlossary =
      token_categorizer ["mov"] GlossaryArg.none (fun _ => []) defaultGlossary ∧
    ∃ d, token_categorizer ["mov"] (GlossaryArg.path "g") (fun _ => ["*X*"]) defaultGlossary =
      Except.ok (d, false) :=
  nonstring_glossary_falls_back_to_default ["mov"] (fun _ => ["*X*"]) (fun _ => [])
    (GlossaryArg.path "g") (fun h => GlossaryArg.noConfusion h)
    (fun _ h => GlossaryArg.noConfusion h)

end AsmPre
